import Mathlib

/-
  Shallow embedding of the SATurday CDCL SAT solver
  (src/datastructs/formula.py, src/solver/environment.py,
   src/solver/exceptions.py, src/parser/dimacs.py).

  Python dictionaries are embedded as association lists with Python's
  insertion-order semantics; partial models are embedded as lookup
  functions `Var -> Option Bool` (the solver only reads models through
  `var in model` and `model[var]`).  Python exceptions are embedded as
  explicit error results; the `while` loops of the solver are embedded
  as fuel-indexed recursion where running out of fuel is a distinct
  `timeout` result, so a normal (`ok`) result corresponds exactly to a
  terminating run of the source loop.
-/

namespace SATurday

/-- Variable of `BooleanVariable` (identified by its `name` string,
equality and hashing are by name). -/
abbrev Var := String

/-- `ClauseLiteral`: a variable together with a polarity. -/
structure Lit where
  var : Var
  polarity : Bool
deriving DecidableEq, Repr

/-- Clauses (`Clause` and its subclass `LearnedClause` in
`src/datastructs/formula.py`).  A `LearnedClause` additionally carries
its `resolution_steps` (the clauses that produced it); `Clause.__eq__`
compares the literal lists only. -/
inductive Clause where
  | base (lits : List Lit) (name : Option String)
  | learned (lits : List Lit) (name : Option String) (steps : List Clause)
deriving Repr

/-- The `children` list of a clause. -/
def Clause.lits : Clause → List Lit
  | .base l _ => l
  | .learned l _ _ => l

/-- `Clause.is_learned` / `LearnedClause.is_learned`. -/
def Clause.isLearned : Clause → Bool
  | .base _ _ => false
  | .learned _ _ _ => true

/-- Python dict insertion (`d[k] = v`): overwrites in place when the key
is present, appends otherwise. -/
def pyInsert {β : Type} (m : List (Var × β)) (k : Var) (v : β) : List (Var × β) :=
  if m.any (fun p => p.1 == k) then
    m.map (fun p => if p.1 == k then (k, v) else p)
  else m ++ [(k, v)]

/-- Python dict deletion (`del d[k]`). -/
def pyDelete {β : Type} (m : List (Var × β)) (k : Var) : List (Var × β) :=
  m.filter (fun p => !(p.1 == k))

/-- `self.lits_polarity_map = { lit.variable: lit.polarity for lit in children }`
(computed in `Clause.__init__`). -/
def litsPolarityMap (c : Clause) : List (Var × Bool) :=
  c.lits.foldl (fun m l => pyInsert m l.var l.polarity) []

/-- `self.lits_map = { lit.variable: lit for lit in children }`
(computed in `Clause.__init__`). -/
def litsMap (c : Clause) : List (Var × Lit) :=
  c.lits.foldl (fun m l => pyInsert m l.var l) []

/-- `Clause.get_literal(variable)`: `self.lits_map[variable]`
(a missing key would be a Python `KeyError`, hence `Option`). -/
def getLiteral (c : Clause) (v : Var) : Option Lit :=
  (litsMap c).lookup v

/-- Membership of a variable in `Clause.get_variables()`
(`self.lits_map.keys()`). -/
def varInClause (c : Clause) (v : Var) : Bool :=
  (litsMap c).any (fun p => p.1 == v)

/-- A partial model, as the solver reads it: Python dict reads
`var in model` / `model[var]` become one lookup function. -/
abbrev PModel := Var → Option Bool

/-- `ClauseStatusEnum`. -/
inductive ClauseStatusEnum where
  | TRUE
  | CONSISTENT
  | UNIT
  | INCONSISTENT
deriving DecidableEq, Repr

/-- `ClauseStatus`: a status plus, for `UNIT`, the unit literal. -/
structure ClauseStatus where
  status : ClauseStatusEnum
  unit : Option Lit
deriving DecidableEq, Repr

/-- The loop of `Clause.get_status`, scanning the literal list while
counting unassigned literals (`n_unassigned`) and remembering the first
unassigned literal (`potential_unit`).  At the end of the scan the
source returns `UNIT` for one unassigned literal and `INCONSISTENT` for
zero; its `n_unassigned > 1` branch is `assert False` and is unreachable
(the loop already returned `CONSISTENT` as soon as the counter exceeded
one; `getStatusGo_unit_iff` and `getStatusGo_inconsistent_iff`
characterize the two end-of-scan outcomes for every call entered with a
count of at most one, as `get_status` enters it with zero). -/
def getStatusGo (m : PModel) : List Lit → Nat → Option Lit → ClauseStatus
  | [], n, pu => if n = 1 then ⟨.UNIT, pu⟩ else ⟨.INCONSISTENT, none⟩
  | l :: rest, n, pu =>
    match m l.var with
    | none =>
      if n + 1 > 1 then ⟨.CONSISTENT, none⟩
      else getStatusGo m rest (n + 1) (some l)
    | some b =>
      if b = l.polarity then ⟨.TRUE, none⟩
      else getStatusGo m rest n pu

/-- `Clause.get_status(model)`. -/
def getStatus (c : Clause) (m : PModel) : ClauseStatus :=
  getStatusGo m c.lits 0 none

/-- `Clause.is_consistent(model)`: scans `lits_polarity_map` and returns
`True` at the first unassigned or satisfied literal. -/
def isConsistent (c : Clause) (m : PModel) : Bool :=
  (litsPolarityMap c).any (fun p =>
    match m p.1 with
    | none => true
    | some b => b == p.2)

/-- The loop of `Clause.is_unit`, counting unassigned entries of
`lits_polarity_map` and returning `False` at the first satisfied
literal. -/
def isUnitGo (m : PModel) : List (Var × Bool) → Nat → Bool
  | [], n => n == 1
  | p :: rest, n =>
    match m p.1 with
    | none => isUnitGo m rest (n + 1)
    | some b => if b ≠ p.2 then isUnitGo m rest n else false

/-- `Clause.is_unit(model)`. -/
def isUnit (c : Clause) (m : PModel) : Bool :=
  isUnitGo m (litsPolarityMap c) 0

/-- `Clause.get_unit(model)`: raises (`.error`) when the clause is not
unit; otherwise returns `self.get_literal(var)` for the first unassigned
variable of `lits_polarity_map`.  The two inner `.error` branches embed
the source falling off the loop (returning `None`) and a `KeyError`;
both are unreachable once `is_unit` held. -/
def getUnit (c : Clause) (m : PModel) : Except String Lit :=
  if isUnit c m then
    match (litsPolarityMap c).find? (fun p => (m p.1).isNone) with
    | some p =>
      match getLiteral c p.1 with
      | some l => .ok l
      | none => .error "KeyError"
    | none => .error "NoneType"
  else .error "Clause is not unit"

/-- Boolean version of `Clause.__eq__` (`isinstance(other, Clause) and
self.children == other.children` — literal lists compared positionally;
names and learnedness are ignored by the source equality, but Lean's
propositional equality on the inductive is finer, so this function is
used only where the source compares clauses, while `DecidableEq Clause`
below decides the structural equality of embedded values). -/
def clauseChildrenEq (a b : Clause) : Bool :=
  a.lits == b.lits

mutual
def clauseDecEq : (a b : Clause) → Decidable (a = b)
  | .base l1 n1, .base l2 n2 =>
    if h1 : l1 = l2 then
      if h2 : n1 = n2 then isTrue (by rw [h1, h2])
      else isFalse (by intro h; injection h; exact h2 (by assumption))
    else isFalse (by intro h; injection h; exact h1 (by assumption))
  | .learned l1 n1 s1, .learned l2 n2 s2 =>
    if h1 : l1 = l2 then
      if h2 : n1 = n2 then
        match clauseListDecEq s1 s2 with
        | isTrue h3 => isTrue (by rw [h1, h2, h3])
        | isFalse h3 => isFalse (by intro h; injection h; exact h3 (by assumption))
      else isFalse (by intro h; injection h; exact h2 (by assumption))
    else isFalse (by intro h; injection h; exact h1 (by assumption))
  | .base _ _, .learned _ _ _ => isFalse (by intro h; exact Clause.noConfusion h)
  | .learned _ _ _, .base _ _ => isFalse (by intro h; exact Clause.noConfusion h)
def clauseListDecEq : (as bs : List Clause) → Decidable (as = bs)
  | [], [] => isTrue rfl
  | a :: as, b :: bs =>
    match clauseDecEq a b with
    | isTrue h1 =>
      match clauseListDecEq as bs with
      | isTrue h2 => isTrue (by rw [h1, h2])
      | isFalse h2 => isFalse (by intro h; injection h; exact h2 (by assumption))
    | isFalse h1 => isFalse (by intro h; injection h; exact h1 (by assumption))
  | [], _ :: _ => isFalse (by intro h; exact List.noConfusion h)
  | _ :: _, [] => isFalse (by intro h; exact List.noConfusion h)
end

instance : DecidableEq Clause := clauseDecEq

/-- Adding a clause to a Python `set` of clauses (the set used in
`LearnedClause.get_resolution_formula_clauses`): clause hashing and
equality go through the literal list (`__hash__`/`__eq__`). -/
def clauseSetAdd (s : List Clause) (c : Clause) : List Clause :=
  if s.any (fun d => clauseChildrenEq d c) then s else s ++ [c]

/-- `set.update` with a list of clauses. -/
def clauseSetUpdate (s : List Clause) (cs : List Clause) : List Clause :=
  cs.foldl clauseSetAdd s

mutual
/-- `Clause.get_resolution_formula_clauses` /
`LearnedClause.get_resolution_formula_clauses`: a formula clause reduces
to itself; a learned clause accumulates, over its `resolution_steps`,
each non-learned step directly and the recursive reduction of each
learned step. -/
def getResolutionFormulaClauses : Clause → List Clause
  | .base lits name => [Clause.base lits name]
  | .learned _ _ steps => rfcSteps steps []
/-- The accumulation loop of `LearnedClause.get_resolution_formula_clauses`. -/
def rfcSteps : List Clause → List Clause → List Clause
  | [], acc => acc
  | s :: rest, acc =>
    if s.isLearned then rfcSteps rest (clauseSetUpdate acc (getResolutionFormulaClauses s))
    else rfcSteps rest (clauseSetAdd acc s)
end

/-- The literal set computed by `Clause.resolve_with` and by the inline
resolution step of `SolverEnvironment.conflict_analysis` (the two are
textually identical in the source):
`lits = set(chain(c1.literals, c2.literals))` followed by keeping the
literals whose complement is not in the set. -/
def resolventLits (a b : List Lit) : List Lit :=
  let u := (a ++ b).dedup
  u.filter (fun l => !(u.contains (Lit.mk l.var (!l.polarity))))

/-- `Clause.resolve_with(premise, name)`: builds a clause of the same
class as `self` from the resolvent literals (a `LearnedClause` built
here gets `resolution_steps=None`, which no solver path ever reads;
embedded as an empty step list). -/
def resolveWith (c : Clause) (premise : Clause) (name : Option String) : Clause :=
  match c with
  | .base _ _ => Clause.base (resolventLits c.lits premise.lits) name
  | .learned _ _ _ => Clause.learned (resolventLits c.lits premise.lits) name []

/-- The variables occurring with both polarities in a literal list
(used to state the single-pivot precondition of binary resolution). -/
def complementaryVars (u : List Lit) : List Var :=
  ((u.map (fun l => l.var)).dedup).filter
    (fun v => u.contains (Lit.mk v true) && u.contains (Lit.mk v false))

/-- Trail steps (`DecisionStep` / `UnitPropagationStep` in
`src/solver/environment.py`).  A `UnitPropagationStep` also stores a
`parents` list derived from the antecedent clause; no solver method ever
reads it (conflict analysis uses `get_antecedent_clause`), so it is not
embedded. -/
inductive Step where
  | decision (lit : Lit) (level : Nat)
  | unitProp (lit : Lit) (antecedent : Clause) (level : Nat)
deriving DecidableEq, Repr

/-- `SolverStep.get_literal`. -/
def Step.lit : Step → Lit
  | .decision l _ => l
  | .unitProp l _ _ => l

/-- `SolverStep.get_decision_level`. -/
def Step.level : Step → Nat
  | .decision _ dl => dl
  | .unitProp _ _ dl => dl

/-- `SolverStep.is_decision`. -/
def Step.isDecision : Step → Bool
  | .decision _ _ => true
  | .unitProp _ _ _ => false

/-- `UnitPropagationStep.get_antecedent_clause` (a `DecisionStep` has no
such attribute; calling it would be a Python `AttributeError`, hence
`Option`). -/
def Step.antecedent? : Step → Option Clause
  | .decision _ _ => none
  | .unitProp _ a _ => some a

/-- `ImplicationGraph`: the current decision level, the trail
(`self.stack`, oldest step first), and the variable index
(`self.lits_map`, a Python dict). -/
structure ImplicationGraph where
  decisionLevel : Nat
  stack : List Step
  litsMap : List (Var × Step)
deriving DecidableEq, Repr

/-- `ImplicationGraph.__init__`. -/
def ImplicationGraph.empty : ImplicationGraph :=
  { decisionLevel := 0, stack := [], litsMap := [] }

/-- `ImplicationGraph._add_node`. -/
def ImplicationGraph.addNode (g : ImplicationGraph) (node : Step) : ImplicationGraph :=
  { g with stack := g.stack ++ [node], litsMap := pyInsert g.litsMap node.lit.var node }

/-- `ImplicationGraph.add_decision(lit)`: `decision_level += 1`, then a
`DecisionStep` at the new level is pushed. -/
def ImplicationGraph.addDecision (g : ImplicationGraph) (l : Lit) : ImplicationGraph :=
  let dl := g.decisionLevel + 1
  ImplicationGraph.addNode { g with decisionLevel := dl } (Step.decision l dl)

/-- `ImplicationGraph.add_unit(lit, antecedent_clause)`: pushes a
`UnitPropagationStep` at the current decision level. -/
def ImplicationGraph.addUnit (g : ImplicationGraph) (l : Lit) (antecedent : Clause) :
    ImplicationGraph :=
  ImplicationGraph.addNode g (Step.unitProp l antecedent g.decisionLevel)

/-- `ImplicationGraph.pop()`: `self.stack.pop()` removes and returns the
last step and deletes its variable from `lits_map`; `decision_level` is
left untouched by the source.  Popping an empty stack is a Python
`IndexError`, hence `Option`. -/
def ImplicationGraph.pop (g : ImplicationGraph) : Option (Step × ImplicationGraph) :=
  match g.stack.getLast? with
  | none => none
  | some s =>
    some (s, { g with stack := g.stack.dropLast, litsMap := pyDelete g.litsMap s.lit.var })

/-- `ImplicationGraph.get_last_step()` (`self.stack[-1]`; `Option` for
the `IndexError` on an empty stack). -/
def ImplicationGraph.lastStep (g : ImplicationGraph) : Option Step :=
  g.stack.getLast?

/-- `ImplicationGraph.is_empty()`. -/
def ImplicationGraph.isEmpty (g : ImplicationGraph) : Bool :=
  g.stack.length == 0

/-- `ImplicationGraph.get_model()`: the trail's literals in order. -/
def ImplicationGraph.getModel (g : ImplicationGraph) : List Lit :=
  g.stack.map (fun s => s.lit)

/-- `ImplicationGraph.get_model_map()`: the dict comprehension
`{ node.literal.variable : node.literal.polarity for node in self.stack }`. -/
def ImplicationGraph.modelMapList (g : ImplicationGraph) : List (Var × Bool) :=
  g.stack.foldl (fun m s => pyInsert m s.lit.var s.lit.polarity) []

/-- The partial model of the trail, as a lookup function (reads of
`get_model_map()` in the solver are `in` and `[...]`). -/
def ImplicationGraph.modelFun (g : ImplicationGraph) : PModel :=
  fun v => (g.modelMapList).lookup v

/-- The number of `DecisionStep`s on a trail (the quantity the
specification says `decision_level` tracks). -/
def countDecisions (stack : List Step) : Nat :=
  (stack.filter Step.isDecision).length

/-- `SolverEnvironment`: variable list, clause database (original plus
learned), learned-clause database, and the implication graph.  The
`variables_occurrences` counter dict is written only by `add_clause`
after the point where that method raises (see `addClause`), so it stays
empty and is not embedded. -/
structure SolverEnvironment where
  vars : List Var
  clauses : List Clause
  learnedClauses : List Clause
  implicationGraph : ImplicationGraph
deriving DecidableEq, Repr

/-- `SolverEnvironment.add_clause(clause)`: the source first appends the
clause to `self.clauses`, then evaluates `self.variables.update(...)`.
`self.variables` is a Python `list`, which has no `update` method, so an
`AttributeError` is raised there (before the argument — which would
itself crash, `Clause` has no `variables()` method — is evaluated, and
before `variables_occurrences` is touched).  The embedding returns the
state at the raise together with the error. -/
def addClause (env : SolverEnvironment) (c : Clause) : SolverEnvironment × Option String :=
  ({ env with clauses := env.clauses ++ [c] },
   some "AttributeError: list object has no attribute update")

/-- The argument of an `UnsatException` (`src/solver/exceptions.py`):
`conflict_analysis` raises it either with a single clause object
(`raise UnsatException(conflict_clause)`) or with the set of formula
clauses of a resolution proof
(`raise UnsatException(learned_clause.get_resolution_formula_clauses())`). -/
inductive UnsatReason where
  | clause (c : Clause)
  | clauses (cs : List Clause)
deriving DecidableEq, Repr

/-- Exceptions that can escape the solver methods.  `stopIteration` is
the `StopIteration` of the exhausted `next(...)` generator in `cdcl`;
`indexError` stands for `list` indexing/popping on an empty list;
`otherError` carries the message of any remaining `Exception`. -/
inductive SolverExc where
  | stopIteration
  | unsat (r : UnsatReason)
  | indexError
  | attributeError
  | otherError (msg : String)
deriving DecidableEq, Repr

/-- Result of a fueled run of a solver method: normal return, a raised
exception, or fuel exhaustion (`timeout`, which only means the embedding
was not given enough fuel, never a source behavior). -/
inductive PRes (α : Type) where
  | ok (a : α)
  | exc (e : SolverExc)
  | timeout
deriving DecidableEq, Repr

/-- The resolution loop of `SolverEnvironment.conflict_analysis` (the
`while not ...is_decision() and not ...is_empty()` loop).  State:
the environment, the current `learned_clause`, and `proof_clauses`.
`get_last_step` on an empty stack is an `IndexError` (the first conjunct
of the loop condition is evaluated before the emptiness test).  When the
resolvent is empty, the source sets `resolution_steps` on the freshly
built learned clause and raises `UnsatException` with that clause's
`get_resolution_formula_clauses()`. -/
def analysisLoop : Nat → SolverEnvironment → Clause → List Clause →
    PRes (SolverEnvironment × Clause × List Clause)
  | 0, _, _, _ => .timeout
  | fuel + 1, env, learned, proof =>
    match env.implicationGraph.lastStep with
    | none => .exc .indexError
    | some last =>
      if last.isDecision then .ok (env, learned, proof)
      else
        match env.implicationGraph.pop with
        | none => .exc .indexError
        | some (prevStep, g') =>
          match prevStep.antecedent? with
          | none => .exc .attributeError
          | some ante =>
            let env' := { env with implicationGraph := g' }
            let lits := resolventLits learned.lits ante.lits
            let name := some ("l" ++ toString env'.learnedClauses.length)
            let proof' := proof ++ [ante]
            if lits.length = 0 then
              .exc (.unsat (.clauses
                (getResolutionFormulaClauses (Clause.learned lits name proof'))))
            else
              analysisLoop fuel env' (Clause.learned lits name []) proof'

/-- The assignment `learned_clause.resolution_steps = proof_clauses`.
On a `LearnedClause` this replaces the steps; when `learned_clause` is
still the original conflict clause (a plain `Clause`), Python attaches a
new attribute that no method of `Clause` ever reads, so the embedded
value is unchanged. -/
def setResolutionSteps : Clause → List Clause → Clause
  | .base l n, _ => .base l n
  | .learned l n _, proof => .learned l n proof

/-- The backjump loop of `SolverEnvironment.conflict_analysis`: pop to
the highest point where the learned clause is unit; raise
`UnsatException(conflict_clause)` if the stack runs out before the
learned clause was unit or if the last step's decision level
(`get_last_decision_level()`) is `0`. -/
def backjumpLoop : Nat → SolverEnvironment → Clause → Clause → Bool → PRes SolverEnvironment
  | 0, _, _, _, _ => .timeout
  | fuel + 1, env, learned, conflictClause, learnedIsUnit =>
    match env.implicationGraph.lastStep with
    | none =>
      if !learnedIsUnit then .exc (.unsat (.clause conflictClause))
      else .ok env
    | some last =>
      if last.level = 0 then .exc (.unsat (.clause conflictClause))
      else if varInClause learned last.lit.var then
        if !learnedIsUnit then
          match env.implicationGraph.pop with
          | none => .exc .indexError
          | some (_, g') =>
            backjumpLoop fuel { env with implicationGraph := g' } learned conflictClause true
        else .ok env
      else
        match env.implicationGraph.pop with
        | none => .exc .indexError
        | some (_, g') =>
          backjumpLoop fuel { env with implicationGraph := g' } learned conflictClause learnedIsUnit

/-- `SolverEnvironment.conflict_analysis(conflict_clause)`: run the
resolution loop starting from the conflict clause, record the proof on
the learned clause, append it to both clause databases, then backjump. -/
def conflictAnalysis (fuel : Nat) (env : SolverEnvironment) (conflictClause : Clause) :
    PRes SolverEnvironment :=
  match analysisLoop fuel env conflictClause [conflictClause] with
  | .timeout => .timeout
  | .exc e => .exc e
  | .ok (env1, learned0, proof) =>
    let learned := setResolutionSteps learned0 proof
    let env2 := { env1 with
      clauses := env1.clauses ++ [learned],
      learnedClauses := env1.learnedClauses ++ [learned] }
    backjumpLoop fuel env2 learned conflictClause false

/-- `SolverEnvironment.unit_propagate()`: repeatedly find the first
`UNIT` clause in database order and push its unit literal; after each
push scan for the first inconsistent clause and, if one exists, run
`conflict_analysis` on it inline and keep propagating.  The method's
only normal return is the `return None` when no unit clause is found.
The extra `Bool` is a ghost flag, `true` once some scan has detected a
conflict clause; it never influences control flow. -/
def unitPropagate : Nat → SolverEnvironment → Bool →
    PRes (SolverEnvironment × Option Clause × Bool)
  | 0, _, _ => .timeout
  | fuel + 1, env, seen =>
    let m := env.implicationGraph.modelFun
    match env.clauses.find? (fun c => isUnit c m) with
    | none => .ok (env, none, seen)
    | some uc =>
      match getUnit uc m with
      | .error msg => .exc (.otherError msg)
      | .ok ul =>
        let env1 := { env with implicationGraph := env.implicationGraph.addUnit ul uc }
        let m' := env1.implicationGraph.modelFun
        match env1.clauses.find? (fun c => !isConsistent c m') with
        | none => unitPropagate fuel env1 seen
        | some cc =>
          match conflictAnalysis fuel env1 cc with
          | .timeout => .timeout
          | .exc e => .exc e
          | .ok env2 => unitPropagate fuel env2 true

/-- The result of `SolverEnvironment.cdcl()`: the source's `try` block
ends in one of its two `except` handlers — `StopIteration` (all
variables assigned: the handler logs the model) or `UnsatException`
(the handler logs `e.reason`) — or an uncaught exception escapes. -/
inductive CdclRes where
  | sat (model : List Lit)
  | unsat (r : UnsatReason)
  | error (e : SolverExc)
  | timeout
deriving DecidableEq, Repr

/-- The `while True` loop of `SolverEnvironment.cdcl`: unit propagation,
then `next(var for var in self.variables if var not in
self.implication_graph.lits_map)` (whose exhaustion raises
`StopIteration`), then `add_decision(ClauseLiteral(var, False))`. -/
def cdclLoop : Nat → SolverEnvironment → CdclRes
  | 0, _ => .timeout
  | fuel + 1, env =>
    match unitPropagate fuel env false with
    | .timeout => .timeout
    | .exc (.unsat r) => .unsat r
    | .exc .stopIteration => .sat env.implicationGraph.getModel
    | .exc e => .error e
    | .ok (env', _conflict, _seen) =>
      match env'.vars.find?
          (fun v => !(env'.implicationGraph.litsMap.any (fun p => p.1 == v))) with
      | none => .sat env'.implicationGraph.getModel
      | some v =>
        cdclLoop fuel { env' with
          implicationGraph := env'.implicationGraph.addDecision (Lit.mk v false) }

/-- `SolverEnvironment.cdcl()` with `fuel` bounding every loop. -/
def cdcl (fuel : Nat) (env : SolverEnvironment) : CdclRes :=
  cdclLoop fuel env

/-- Python `line.startswith("c")`. -/
def pyStartsWithC (l : String) : Bool :=
  match l.data with
  | c :: _ => c == 'c'
  | [] => false

/-- Helper for Python `str.split()`: split on whitespace runs, dropping
empty tokens; `cur` holds the current token's characters reversed. -/
def splitWsAux : List Char → List Char → List String
  | [], cur => if cur.isEmpty then [] else [String.mk cur.reverse]
  | ch :: rest, cur =>
    if ch.isWhitespace then
      if cur.isEmpty then splitWsAux rest []
      else String.mk cur.reverse :: splitWsAux rest []
    else splitWsAux rest (ch :: cur)

/-- Python `str.split()` with no arguments. -/
def splitWs (s : String) : List String :=
  splitWsAux s.data []

/-- Decimal digits to a number; `none` on a non-digit. -/
def digitsToNatGo : List Char → Nat → Option Nat
  | [], acc => some acc
  | d :: rest, acc =>
    if '0' ≤ d ∧ d ≤ '9' then digitsToNatGo rest (acc * 10 + (d.toNat - '0'.toNat))
    else none

/-- Decimal digits to a number; `none` when empty. -/
def digitsToNat (ds : List Char) : Option Nat :=
  if ds.isEmpty then none else digitsToNatGo ds 0

/-- Python `int(tok)` for the whitespace-split tokens the parser feeds
it: an optional minus sign followed by digits (Python's further
tolerance — a plus sign, underscores — never occurs in DIMACS files and
would make the embedding reject where Python accepts, which no claim
exercises). -/
def pyInt? (s : String) : Option Int :=
  match s.data with
  | '-' :: rest => (digitsToNat rest).map (fun n => -(n : Int))
  | ds => (digitsToNat ds).map (fun n => (n : Int))

/-- The per-line literal loop of `parse_dimacs`: walk the tokens of one
line, stop at a `"0"` token, turn token `i` into the literal of variable
`variables[abs(i) - 1]` with polarity `i > 0`.  A non-integer token is a
`ValueError`; an out-of-range index an `IndexError` (a token such as
`"-0"` yields Python index `-1`, i.e. the last variable). -/
def parseLitsGo (vs : List Var) : List String → List Lit → Except String (List Lit)
  | [], acc => .ok acc
  | tok :: rest, acc =>
    if tok = "0" then .ok acc
    else
      match pyInt? tok with
      | none => .error "ValueError"
      | some i =>
        match (if i = 0 then vs.getLast? else vs.get? (i.natAbs - 1)) with
        | none => .error "IndexError"
        | some v => parseLitsGo vs rest (acc ++ [Lit.mk v (decide (0 < i))])

/-- One clause line of `parse_dimacs`. -/
def parseClauseLine (vs : List Var) (l : String) : Except String (List Lit) :=
  parseLitsGo vs (splitWs l) []

/-- The clause loop of `parse_dimacs`: one `Clause(clause)` appended per
line after the header. -/
def parseClauses (vs : List Var) : List String → Except String (List Clause)
  | [] => .ok []
  | l :: rest =>
    match parseClauseLine vs l with
    | .error e => .error e
    | .ok lits =>
      match parseClauses vs rest with
      | .error e => .error e
      | .ok cs => .ok (Clause.base lits none :: cs)

/-- The comment filter of `parse_dimacs`
(`[l for l in lines if not l.startswith("c")]`). -/
def nonCommentLines (lines : List String) : List String :=
  lines.filter (fun l => !pyStartsWithC l)

/-- `parse_dimacs`, starting from the file's lines: drop comment lines,
read the `p cnf <num_vars> <num_clauses>` header (assertion and
conversion failures become errors, and the clause count is read but not
checked), build `v1..v{num_vars}`, then parse one clause per remaining
line. -/
def parseDimacs (lines : List String) : Except String (List Var × List Clause) :=
  match nonCommentLines lines with
  | [] => .error "IndexError"
  | header :: rest =>
    match splitWs header with
    | [] => .error "IndexError"
    | t0 :: hrest1 =>
      if t0 = "p" then
        match hrest1 with
        | [] => .error "IndexError"
        | t1 :: hrest2 =>
          if t1 = "cnf" then
            match hrest2 with
            | [] => .error "IndexError"
            | t2 :: hrest3 =>
              match pyInt? t2 with
              | none => .error "ValueError"
              | some numVars =>
                match hrest3 with
                | [] => .error "IndexError"
                | t3 :: _ =>
                  match pyInt? t3 with
                  | none => .error "ValueError"
                  | some _ =>
                    let vs :=
                      (List.range numVars.toNat).map (fun i => "v" ++ toString (i + 1))
                    match parseClauses vs rest with
                    | .error e => .error e
                    | .ok cs => .ok (vs, cs)
          else .error "AssertionError"
      else .error "AssertionError"

/-- Truth of a clause (a disjunction of literals) under a total
assignment; used to state satisfiability of inputs. -/
def clauseSat (σ : Var → Bool) (c : Clause) : Prop :=
  ∃ l ∈ c.lits, σ l.var = l.polarity

/-- Truth of a clause set under a total assignment. -/
def formulaSat (σ : Var → Bool) (cs : List Clause) : Prop :=
  ∀ c ∈ cs, clauseSat σ c

/-- The caller-observable part of a `unit_propagate` run that returns
normally: the Python return value and the ghost conflict flag. -/
def upObservation :
    PRes (SolverEnvironment × Option Clause × Bool) → Option (Option Clause × Bool)
  | .ok (_, v, b) => some (v, b)
  | _ => none

/-- The empty clause, as the parser builds it. -/
def emptyClause : Clause := Clause.base [] none

/-- Environment holding exactly the empty clause (the spec's boundary
case "clause set containing the empty clause"). -/
def envEmptyClause : SolverEnvironment :=
  { vars := [], clauses := [emptyClause], learnedClauses := [],
    implicationGraph := ImplicationGraph.empty }

/-- Fixture clause `c1 = (v1 OR v2)`. -/
def cnfA : Clause := Clause.base [⟨"v1", true⟩, ⟨"v2", true⟩] (some "c1")

/-- Fixture clause `c2 = (v1 OR !v2)`. -/
def cnfB : Clause := Clause.base [⟨"v1", true⟩, ⟨"v2", false⟩] (some "c2")

/-- Environment with clauses `(v1 OR v2), (v1 OR !v2)` after the solver
decided `v1 = False` (the state `cdcl` reaches on this input right
before its second `unit_propagate` call). -/
def envAfterDecision : SolverEnvironment :=
  { vars := ["v1", "v2"], clauses := [cnfA, cnfB], learnedClauses := [],
    implicationGraph := ImplicationGraph.empty.addDecision ⟨"v1", false⟩ }

/-- Fixture clause `(v1)`. -/
def cnfUnitPos : Clause := Clause.base [⟨"v1", true⟩] (some "c1")

/-- Fixture clause `(!v1 OR v2 OR v3)`. -/
def cnfImpl : Clause := Clause.base [⟨"v1", false⟩, ⟨"v2", true⟩, ⟨"v3", true⟩] (some "c2")

/-- Fixture clause `(!v3 OR v2)`. -/
def cnfBack : Clause := Clause.base [⟨"v3", false⟩, ⟨"v2", true⟩] (some "c3")

/-- Environment for the formula `(v1), (!v1 OR v2 OR v3), (!v3 OR v2)`
(satisfiable, e.g. by `v1 = v2 = true`); running `cdcl` on it drives
backjumping onto the level-0 unit step for `v1`. -/
def envLevelZero : SolverEnvironment :=
  { vars := ["v1", "v2", "v3"], clauses := [cnfUnitPos, cnfImpl, cnfBack],
    learnedClauses := [], implicationGraph := ImplicationGraph.empty }

/-- Fixture clause `(!v1)`. -/
def cnfUnitNeg : Clause := Clause.base [⟨"v1", false⟩] (some "c2")

/-- Environment for `(v1), (!v1)` right after propagation pushed
`v1 = true` with antecedent `(v1)`: the state in which
`conflict_analysis` is entered with conflict clause `(!v1)`. -/
def envContradiction : SolverEnvironment :=
  { vars := ["v1"], clauses := [cnfUnitPos, cnfUnitNeg], learnedClauses := [],
    implicationGraph := ImplicationGraph.empty.addUnit ⟨"v1", true⟩ cnfUnitPos }

/-- Fixture clause `(v1 OR v2 OR v3)`. -/
def wideClause : Clause := Clause.base [⟨"v1", true⟩, ⟨"v2", true⟩, ⟨"v3", true⟩] none

/-- Partial model assigning only `v3 := true`. -/
def modelV3True : PModel := fun v => if v = "v3" then some true else none

/-- Environment whose single clause has two unassigned literals: the
first `unit_propagate` scan finds nothing to do. -/
def envNoUnit : SolverEnvironment :=
  { vars := ["v1", "v2"], clauses := [cnfA], learnedClauses := [],
    implicationGraph := ImplicationGraph.empty }

/-- Fixture clause `(v1 OR !v2)` with distinct variables. -/
def unitWitnessClause : Clause := Clause.base [⟨"v1", true⟩, ⟨"v2", false⟩] none

/-- Partial model assigning only `v1 := false` (making
`unitWitnessClause` unit on `!v2`). -/
def unitWitnessModel : PModel := fun v => if v = "v1" then some false else none

/-- Analysis helper: truth of one variable/polarity pair under a
partial model. -/
def litSat (m : PModel) (v : Var) (p : Bool) : Bool :=
  match m v with
  | some b => b == p
  | none => false

/-- Analysis helper: number of unassigned entries in a
variable/polarity list. -/
def countUnassignedPairs (m : PModel) (ps : List (Var × Bool)) : Nat :=
  (ps.filter (fun p => (m p.1).isNone)).length

/-- Analysis helper: number of unassigned literals in a literal list. -/
def countUnassignedLits (m : PModel) (ls : List Lit) : Nat :=
  (ls.filter (fun l => (m l.var).isNone)).length

/-- Analysis helper: the first unassigned literal of a literal list. -/
def firstUnassigned (m : PModel) (ls : List Lit) : Option Lit :=
  ls.find? (fun l => (m l.var).isNone)

/-- C1: on the clause set consisting of the empty clause — which no
assignment satisfies — `cdcl` finishes through its `StopIteration`
handler and reports SAT with the empty model, instead of the UNSAT
result with a core that the claim (and the spec's boundary case) require:
the empty clause is never `UNIT`, and the solver looks for inconsistent
clauses only after pushing a unit literal, so the conflict is never
seen. -/
theorem cdcl_sat_on_empty_clause_input :
    cdcl 5 envEmptyClause = CdclRes.sat [] ∧
      ∀ σ : Var → Bool, ¬ formulaSat σ envEmptyClause.clauses := by
  constructor
  · rfl
  · intro σ h
    obtain ⟨l, hl, -⟩ := h emptyClause (by simp [envEmptyClause])
    simp [emptyClause, Clause.lits] at hl

/-- C2: `add_clause` appends the clause to the database but then always
raises (`self.variables` is a Python `list`, which has no `update`
method), so the variable set is never extended — contradicting the
claim that the method adds the clause's variables and returns without
error. -/
theorem add_clause_always_raises (env : SolverEnvironment) (c : Clause) :
    (addClause env c).2.isSome = true ∧
      (addClause env c).1.clauses = env.clauses ++ [c] ∧
      (addClause env c).1.vars = env.vars := by
  simp [addClause]

/-- C4: after `add_decision` followed by `pop()` the popped step is the
decision just pushed, yet `decision_level` stays `1` while no decision
step remains on the trail — `pop()` never decrements the level, so the
claimed invariant fails immediately. -/
theorem pop_keeps_decision_level :
    ((ImplicationGraph.empty.addDecision ⟨"v1", false⟩).pop).map
        (fun p => (p.1, p.2.decisionLevel, countDecisions p.2.stack)) =
      some (Step.decision ⟨"v1", false⟩ 1, 1, 0) := by
  rfl

/-- C6: the clause `(v1 OR v2 OR v3)` has its literal on `v3` satisfied
by the model `{v3 := true}`, but `get_status` returns `CONSISTENT`, not
`TRUE`: the scan returns `CONSISTENT` as soon as it meets a second
unassigned literal, before ever looking at `v3`. -/
theorem get_status_misses_satisfied_literal :
    getStatus wideClause modelV3True = ⟨.CONSISTENT, none⟩ ∧
      (⟨"v3", true⟩ : Lit) ∈ wideClause.lits ∧
      modelV3True "v3" = some true := by
  refine ⟨rfl, ?_, rfl⟩
  simp [wideClause, Clause.lits]

/-- C3 (counterexample): on `(v1 OR v2), (v1 OR !v2)` after the decision
`v1 = False`, propagation runs into a conflict (the ghost flag of the
run is `true`) and `conflict_analysis` is executed inline, yet
`unit_propagate` returns normally with `None` — the conflict clause is
never returned to the caller, refuting "the returned value is non-None
exactly when a conflict was encountered". -/
theorem unit_propagate_swallows_conflict :
    upObservation (unitPropagate 10 envAfterDecision false) = some (none, true) := by
  rfl

/-- C5 (counterexample): running `cdcl` on
`(v1), (!v1 OR v2 OR v3), (!v3 OR v2)` drives backjumping down to the
level-0 unit step for `v1`, and the resulting UNSAT carries just the
bare conflict clause object `(!v3 OR v2)` — not a set of clauses
obtained by reducing `resolution_steps`, so the two UNSAT paths do not
attach a core of the same form. -/
theorem backjump_unsat_carries_bare_conflict_clause :
    cdcl 10 envLevelZero = CdclRes.unsat (.clause cnfBack) := by
  rfl

/-- The `is_unit` loop succeeds exactly when no scanned entry is
satisfied and the count of unassigned entries ends at one. -/
theorem isUnitGo_iff (m : PModel) : ∀ ps n,
    isUnitGo m ps n = true ↔
      ((∀ q ∈ ps, litSat m q.1 q.2 = false) ∧ n + countUnassignedPairs m ps = 1)
  | [], n => by
    simp [isUnitGo, countUnassignedPairs]
  | q :: rest, n => by
    rcases hq : m q.1 with _ | b
    · have ih := isUnitGo_iff m rest (n + 1)
      simp only [isUnitGo, hq, ih, countUnassignedPairs, List.filter_cons,
        Option.isNone_none, if_pos, litSat, List.mem_cons, List.length_cons]
      constructor
      · rintro ⟨h1, h2⟩
        refine ⟨?_, by omega⟩
        rintro q' (rfl | hq')
        · simp [hq]
        · exact h1 q' hq'
      · rintro ⟨h1, h2⟩
        exact ⟨fun q' hq' => h1 q' (Or.inr hq'), by omega⟩
    · have hfilter : List.filter (fun p => (m p.1).isNone) (q :: rest) =
          List.filter (fun p => (m p.1).isNone) rest := by
        simp [List.filter_cons, hq]
      by_cases hb : b = q.2
      · subst hb
        constructor
        · intro h
          simp [isUnitGo, hq] at h
        · rintro ⟨h1, -⟩
          have hs := h1 q (List.mem_cons_self q rest)
          simp [litSat, hq] at hs
      · have ih := isUnitGo_iff m rest n
        have hLHS : isUnitGo m (q :: rest) n = isUnitGo m rest n := by
          simp [isUnitGo, hq, hb]
        rw [hLHS, ih]
        unfold countUnassignedPairs
        rw [hfilter]
        constructor
        · rintro ⟨h1, h2⟩
          refine ⟨?_, h2⟩
          rintro q' hq'
          rcases List.mem_cons.mp hq' with rfl | hmem
          · simp [litSat, hq, hb]
          · exact h1 q' hmem
        · rintro ⟨h1, h2⟩
          exact ⟨fun q' hq' => h1 q' (List.mem_cons_of_mem q hq'), h2⟩

/-- Unassigned head literal adds one to the unassigned count. -/
theorem countUnassignedLits_cons_unassigned (m : PModel) (l : Lit) (rest : List Lit)
    (hl : m l.var = none) :
    countUnassignedLits m (l :: rest) = countUnassignedLits m rest + 1 := by
  simp [countUnassignedLits, List.filter_cons, hl]

/-- Assigned head literal leaves the unassigned count unchanged. -/
theorem countUnassignedLits_cons_assigned (m : PModel) (l : Lit) (rest : List Lit) (b : Bool)
    (hl : m l.var = some b) :
    countUnassignedLits m (l :: rest) = countUnassignedLits m rest := by
  simp [countUnassignedLits, List.filter_cons, hl]

/-- The `get_status` scan reports `UNIT` exactly when no literal is
satisfied and the unassigned count ends at one. -/
theorem getStatusGo_unit_iff (m : PModel) : ∀ ls n pu, n ≤ 1 →
    ((getStatusGo m ls n pu).status = .UNIT ↔
      (∀ l ∈ ls, litSat m l.var l.polarity = false) ∧ n + countUnassignedLits m ls = 1)
  | [], n, pu => by
    intro hn
    by_cases h1 : n = 1 <;> simp [getStatusGo, countUnassignedLits, h1]
  | l :: rest, n, pu => by
    intro hn
    rcases hl : m l.var with _ | b
    · rw [countUnassignedLits_cons_unassigned m l rest hl]
      by_cases h1 : n = 1
      · subst h1
        have hLHS : getStatusGo m (l :: rest) 1 pu = ⟨.CONSISTENT, none⟩ := by
          simp [getStatusGo, hl]
        rw [hLHS]
        simp only [show (ClauseStatus.mk .CONSISTENT none).status = .CONSISTENT from rfl]
        constructor
        · intro h; cases h
        · rintro ⟨-, h2⟩; omega
      · have h0 : n = 0 := by omega
        subst h0
        have hLHS : getStatusGo m (l :: rest) 0 pu = getStatusGo m rest 1 (some l) := by
          simp [getStatusGo, hl]
        rw [hLHS, getStatusGo_unit_iff m rest 1 (some l) (by omega)]
        constructor
        · rintro ⟨h1', h2⟩
          refine ⟨?_, by omega⟩
          rintro l' hl'
          rcases List.mem_cons.mp hl' with rfl | hmem
          · simp [litSat, hl]
          · exact h1' l' hmem
        · rintro ⟨h1', h2⟩
          exact ⟨fun l' hl' => h1' l' (List.mem_cons_of_mem l hl'), by omega⟩
    · rw [countUnassignedLits_cons_assigned m l rest b hl]
      by_cases hb : b = l.polarity
      · subst hb
        have hLHS : getStatusGo m (l :: rest) n pu = ⟨.TRUE, none⟩ := by
          simp [getStatusGo, hl]
        rw [hLHS]
        constructor
        · intro h; cases h
        · rintro ⟨h1', -⟩
          have hs := h1' l (List.mem_cons_self l rest)
          simp [litSat, hl] at hs
      · have hLHS : getStatusGo m (l :: rest) n pu = getStatusGo m rest n pu := by
          simp [getStatusGo, hl, hb]
        rw [hLHS, getStatusGo_unit_iff m rest n pu hn]
        constructor
        · rintro ⟨h1', h2⟩
          refine ⟨?_, h2⟩
          rintro l' hl'
          rcases List.mem_cons.mp hl' with rfl | hmem
          · simp [litSat, hl, hb]
          · exact h1' l' hmem
        · rintro ⟨h1', h2⟩
          exact ⟨fun l' hl' => h1' l' (List.mem_cons_of_mem l hl'), h2⟩

/-- The `get_status` scan reports `INCONSISTENT` exactly when no literal
is satisfied and no literal is unassigned. -/
theorem getStatusGo_inconsistent_iff (m : PModel) : ∀ ls n pu, n ≤ 1 →
    ((getStatusGo m ls n pu).status = .INCONSISTENT ↔
      (∀ l ∈ ls, litSat m l.var l.polarity = false) ∧ n + countUnassignedLits m ls = 0)
  | [], n, pu => by
    intro hn
    by_cases h1 : n = 1
    · simp [getStatusGo, countUnassignedLits, h1]
    · simp [getStatusGo, countUnassignedLits, h1]
      omega
  | l :: rest, n, pu => by
    intro hn
    rcases hl : m l.var with _ | b
    · rw [countUnassignedLits_cons_unassigned m l rest hl]
      by_cases h1 : n = 1
      · subst h1
        have hLHS : getStatusGo m (l :: rest) 1 pu = ⟨.CONSISTENT, none⟩ := by
          simp [getStatusGo, hl]
        rw [hLHS]
        constructor
        · intro h; cases h
        · rintro ⟨-, h2⟩; omega
      · have h0 : n = 0 := by omega
        subst h0
        have hLHS : getStatusGo m (l :: rest) 0 pu = getStatusGo m rest 1 (some l) := by
          simp [getStatusGo, hl]
        rw [hLHS, getStatusGo_inconsistent_iff m rest 1 (some l) (by omega)]
        constructor
        · rintro ⟨-, h2⟩; omega
        · rintro ⟨-, h2⟩; omega
    · rw [countUnassignedLits_cons_assigned m l rest b hl]
      by_cases hb : b = l.polarity
      · subst hb
        have hLHS : getStatusGo m (l :: rest) n pu = ⟨.TRUE, none⟩ := by
          simp [getStatusGo, hl]
        rw [hLHS]
        constructor
        · intro h; cases h
        · rintro ⟨h1', -⟩
          have hs := h1' l (List.mem_cons_self l rest)
          simp [litSat, hl] at hs
      · have hLHS : getStatusGo m (l :: rest) n pu = getStatusGo m rest n pu := by
          simp [getStatusGo, hl, hb]
        rw [hLHS, getStatusGo_inconsistent_iff m rest n pu hn]
        constructor
        · rintro ⟨h1', h2⟩
          refine ⟨?_, h2⟩
          rintro l' hl'
          rcases List.mem_cons.mp hl' with rfl | hmem
          · simp [litSat, hl, hb]
          · exact h1' l' hmem
        · rintro ⟨h1', h2⟩
          exact ⟨fun l' hl' => h1' l' (List.mem_cons_of_mem l hl'), h2⟩

/-- When the `get_status` scan starting with one counted unassigned
literal still reports `UNIT`, the reported unit literal is the
remembered one. -/
theorem getStatusGo_unit_val_one (m : PModel) : ∀ ls l0,
    (getStatusGo m ls 1 (some l0)).status = .UNIT →
      (getStatusGo m ls 1 (some l0)).unit = some l0
  | [], l0 => by simp [getStatusGo]
  | l :: rest, l0 => by
    intro h
    rcases hl : m l.var with _ | b
    · simp [getStatusGo, hl] at h
    · by_cases hb : b = l.polarity
      · subst hb; simp [getStatusGo, hl] at h
      · have hLHS : getStatusGo m (l :: rest) 1 (some l0) = getStatusGo m rest 1 (some l0) := by
          simp [getStatusGo, hl, hb]
        rw [hLHS] at h ⊢
        exact getStatusGo_unit_val_one m rest l0 h

/-- When `get_status` reports `UNIT`, the reported unit literal is the
first unassigned literal of the scan. -/
theorem getStatusGo_unit_val (m : PModel) : ∀ ls,
    (getStatusGo m ls 0 none).status = .UNIT →
      (getStatusGo m ls 0 none).unit = firstUnassigned m ls
  | [] => by simp [getStatusGo]
  | l :: rest => by
    intro h
    rcases hl : m l.var with _ | b
    · have hLHS : getStatusGo m (l :: rest) 0 none = getStatusGo m rest 1 (some l) := by
        simp [getStatusGo, hl]
      rw [hLHS] at h ⊢
      rw [getStatusGo_unit_val_one m rest l h]
      simp [firstUnassigned, List.find?_cons, hl]
    · by_cases hb : b = l.polarity
      · subst hb; simp [getStatusGo, hl] at h
      · have hLHS : getStatusGo m (l :: rest) 0 none = getStatusGo m rest 0 none := by
          simp [getStatusGo, hl, hb]
        rw [hLHS] at h ⊢
        rw [getStatusGo_unit_val m rest h]
        simp [firstUnassigned, List.find?_cons, hl]

/-- Inserting a fresh key into a Python dict appends it. -/
theorem pyInsert_fresh {β : Type} (m : List (Var × β)) (k : Var) (v : β)
    (h : ∀ p ∈ m, p.1 ≠ k) : pyInsert m k v = m ++ [(k, v)] := by
  have hany : m.any (fun p => p.1 == k) = false := by
    rw [List.any_eq_false]
    intro p hp
    simpa using h p hp
  simp [pyInsert, hany]

/-- Folding fresh-keyed insertions over a Python dict appends the
corresponding pairs in order. -/
theorem foldl_pyInsert_eq {β : Type} (f : Lit → β) : ∀ (ls : List Lit) (acc : List (Var × β)),
    (∀ l ∈ ls, ∀ p ∈ acc, p.1 ≠ l.var) → (ls.map Lit.var).Nodup →
      ls.foldl (fun m l => pyInsert m l.var (f l)) acc = acc ++ ls.map (fun l => (l.var, f l))
  | [], acc => by simp
  | l :: rest, acc => by
    intro hfresh hnd
    rw [List.map_cons] at hnd
    have hndc := List.nodup_cons.mp hnd
    rw [List.foldl_cons,
      pyInsert_fresh acc l.var (f l) (fun p hp => hfresh l (List.mem_cons_self l rest) p hp),
      foldl_pyInsert_eq f rest (acc ++ [(l.var, f l)]) ?_ hndc.2]
    · simp
    · intro l' hl' p hp
      rcases List.mem_append.mp hp with hin | hin
      · exact hfresh l' (List.mem_cons_of_mem l hl') p hin
      · have hpv : p.1 = l.var := by
          simp at hin
          rw [hin]
        rw [hpv]
        intro he
        exact hndc.1 (he ▸ List.mem_map_of_mem Lit.var hl')

/-- When the clause mentions each variable once, `lits_polarity_map`
lists the literals' variable/polarity pairs in clause order. -/
theorem litsPolarityMap_eq (c : Clause) (h : (c.lits.map Lit.var).Nodup) :
    litsPolarityMap c = c.lits.map (fun l => (l.var, l.polarity)) := by
  unfold litsPolarityMap
  rw [foldl_pyInsert_eq (fun l => l.polarity) c.lits [] (by simp) h]
  simp

/-- When the clause mentions each variable once, `lits_map` lists the
variable/literal pairs in clause order. -/
theorem litsMap_eq (c : Clause) (h : (c.lits.map Lit.var).Nodup) :
    litsMap c = c.lits.map (fun l => (l.var, l)) := by
  unfold litsMap
  rw [foldl_pyInsert_eq (fun l => l) c.lits [] (by simp) h]
  simp

/-- Unassigned count over the variable/polarity pairs equals the count
over the literals. -/
theorem countUnassignedPairs_map (m : PModel) (ls : List Lit) :
    countUnassignedPairs m (ls.map (fun l => (l.var, l.polarity))) =
      countUnassignedLits m ls := by
  unfold countUnassignedPairs countUnassignedLits
  rw [List.filter_map, List.length_map]
  rfl

/-- The unassigned count is positive exactly when some literal is
unassigned. -/
theorem countUnassignedLits_pos_iff (m : PModel) (ls : List Lit) :
    countUnassignedLits m ls ≠ 0 ↔ ∃ l ∈ ls, (m l.var).isNone = true := by
  unfold countUnassignedLits
  rw [Ne, List.length_eq_zero, List.filter_eq_nil_iff]
  push_neg
  simp

/-- `is_unit` agrees with `get_status` reporting `UNIT` on clauses that
mention each variable once. -/
theorem isUnit_iff_status_unit (c : Clause) (m : PModel)
    (h : (c.lits.map Lit.var).Nodup) :
    isUnit c m = true ↔ (getStatus c m).status = .UNIT := by
  rw [isUnit, isUnitGo_iff, getStatus,
    getStatusGo_unit_iff m c.lits 0 none (by omega), litsPolarityMap_eq c h,
    countUnassignedPairs_map]
  constructor
  · rintro ⟨h1, h2⟩
    exact ⟨fun l hl => h1 (l.var, l.polarity) (List.mem_map_of_mem _ hl), h2⟩
  · rintro ⟨h1, h2⟩
    refine ⟨?_, h2⟩
    rintro q hq
    rcases List.mem_map.mp hq with ⟨l, hl, rfl⟩
    exact h1 l hl

/-- `is_consistent` agrees with `get_status` not reporting
`INCONSISTENT` on clauses that mention each variable once. -/
theorem isConsistent_iff_not_inconsistent (c : Clause) (m : PModel)
    (h : (c.lits.map Lit.var).Nodup) :
    isConsistent c m = true ↔ (getStatus c m).status ≠ .INCONSISTENT := by
  rw [getStatus, Ne,
    getStatusGo_inconsistent_iff m c.lits 0 none (by omega)]
  rw [isConsistent, litsPolarityMap_eq c h]
  rw [List.any_eq_true]
  constructor
  · rintro ⟨q, hq, hsat⟩
    rcases List.mem_map.mp hq with ⟨l, hl, rfl⟩
    rcases hv : m l.var with _ | b
    · rintro ⟨-, hcnt⟩
      have : countUnassignedLits m c.lits ≠ 0 :=
        (countUnassignedLits_pos_iff m c.lits).mpr ⟨l, hl, by simp [hv]⟩
      omega
    · rintro ⟨hall, -⟩
      have hfa := hall l hl
      simp only [hv] at hsat
      simp only [litSat, hv, beq_eq_false_iff_ne, Ne] at hfa
      exact hfa (by simpa using hsat)
  · intro hno
    by_cases hex : ∃ l ∈ c.lits, (m l.var).isNone = true
    · rcases hex with ⟨l, hl, hun⟩
      refine ⟨(l.var, l.polarity), List.mem_map_of_mem _ hl, ?_⟩
      rcases hv : m l.var with _ | b
      · simp
      · rw [hv] at hun; simp at hun
    · have hcnt : countUnassignedLits m c.lits = 0 := by
        by_contra hne
        exact hex ((countUnassignedLits_pos_iff m c.lits).mp hne)
      have hsome : ¬ ∀ l ∈ c.lits, litSat m l.var l.polarity = false := by
        intro hall
        exact hno ⟨hall, by omega⟩
      push_neg at hsome
      rcases hsome with ⟨l, hl, hls⟩
      simp only [Bool.not_eq_false] at hls
      refine ⟨(l.var, l.polarity), List.mem_map_of_mem _ hl, ?_⟩
      rcases hv : m l.var with _ | b
      · simp
      · simp only [litSat, hv] at hls
        simpa [hv] using hls

/-- Looking up a literal's variable in the clause-order
variable/literal pairs returns that literal when variables are
distinct. -/
theorem lookup_map_lit : ∀ (ls : List Lit) (l0 : Lit),
    (ls.map Lit.var).Nodup → l0 ∈ ls →
      (ls.map (fun l => (l.var, l))).lookup l0.var = some l0
  | [], l0 => by simp
  | l :: rest, l0 => by
    intro hnd hmem
    rw [List.map_cons] at hnd
    have hndc := List.nodup_cons.mp hnd
    rcases List.mem_cons.mp hmem with rfl | hmem'
    · simp [List.lookup]
    · have hne : (l0.var == l.var) = false := by
        simp only [beq_eq_false_iff_ne, Ne]
        intro he
        exact hndc.1 (he ▸ List.mem_map_of_mem Lit.var hmem')
      simp only [List.map_cons, List.lookup, hne]
      exact lookup_map_lit rest l0 hndc.2 hmem'

/-- When a clause with distinct variables is unit, `get_unit` returns
the first unassigned literal. -/
theorem getUnit_of_isUnit (c : Clause) (m : PModel)
    (h : (c.lits.map Lit.var).Nodup) (hu : isUnit c m = true) :
    ∃ l, firstUnassigned m c.lits = some l ∧ getUnit c m = Except.ok l := by
  have hcnt := ((isUnitGo_iff m _ 0).mp (by rw [← isUnit]; exact hu)).2
  rw [litsPolarityMap_eq c h, countUnassignedPairs_map] at hcnt
  have hex : ∃ l ∈ c.lits, (m l.var).isNone = true :=
    (countUnassignedLits_pos_iff m c.lits).mp (by omega)
  rcases hopt : firstUnassigned m c.lits with _ | l0
  · exfalso
    have hfind : (firstUnassigned m c.lits).isSome := by
      rw [firstUnassigned, List.find?_isSome]
      exact hex
    rw [hopt] at hfind
    simp at hfind
  · refine ⟨l0, rfl, ?_⟩
    have hmem : l0 ∈ c.lits := List.mem_of_find?_eq_some hopt
    unfold getUnit
    rw [if_pos hu]
    rw [litsPolarityMap_eq c h, List.find?_map]
    have hfind2 : c.lits.find?
        ((fun p => (m p.1).isNone) ∘ (fun l => (l.var, l.polarity))) = some l0 := hopt
    rw [hfind2]
    have hlook : getLiteral c (l0.var, l0.polarity).1 = some l0 := by
      rw [getLiteral, litsMap_eq c h]
      exact lookup_map_lit c.lits l0 h hmem
    simp [hlook]

/-- When a clause is not unit, `get_unit` raises. -/
theorem getUnit_error_of_not_unit (c : Clause) (m : PModel) (hu : isUnit c m = false) :
    getUnit c m = Except.error "Clause is not unit" := by
  simp [getUnit, hu]

/-- C8: for a clause mentioning each variable at most once and any
partial model, `is_unit` holds iff `get_status` reports `UNIT`,
`is_consistent` holds iff `get_status` does not report `INCONSISTENT`,
and in the `UNIT` case `get_unit` returns exactly the unit literal that
`get_status` reports, while in every other case `get_unit` raises. -/
theorem clause_helpers_agree_with_status (c : Clause) (m : PModel)
    (h : (c.lits.map Lit.var).Nodup) :
    (isUnit c m = true ↔ (getStatus c m).status = .UNIT) ∧
    (isConsistent c m = true ↔ (getStatus c m).status ≠ .INCONSISTENT) ∧
    ((getStatus c m).status = .UNIT →
      ∃ l, (getStatus c m).unit = some l ∧ getUnit c m = Except.ok l) ∧
    ((getStatus c m).status ≠ .UNIT →
      getUnit c m = Except.error "Clause is not unit") := by
  refine ⟨isUnit_iff_status_unit c m h, isConsistent_iff_not_inconsistent c m h, ?_, ?_⟩
  · intro hst
    have hu : isUnit c m = true := (isUnit_iff_status_unit c m h).mpr hst
    rcases getUnit_of_isUnit c m h hu with ⟨l, hfirst, hok⟩
    refine ⟨l, ?_, hok⟩
    have hval := getStatusGo_unit_val m c.lits hst
    rw [getStatus, hval, hfirst]
  · intro hst
    have hu : isUnit c m = false := by
      rcases hb : isUnit c m
      · rfl
      · exact absurd ((isUnit_iff_status_unit c m h).mp hb) hst
    exact getUnit_error_of_not_unit c m hu

/-- Witness for `clause_helpers_agree_with_status` at the clause
`(v1 OR !v2)` and the model `{v1 := false}`. -/
theorem clause_helpers_agree_with_status_witness :
    ((unitWitnessClause.lits.map Lit.var).Nodup) ∧
      (isUnit unitWitnessClause unitWitnessModel = true ↔
        (getStatus unitWitnessClause unitWitnessModel).status = .UNIT) :=
  ⟨by decide,
   (clause_helpers_agree_with_status unitWitnessClause unitWitnessModel (by decide)).1⟩

/-- A normal return of `unit_propagate` always carries `None` and
happens exactly at a state whose clause scan finds no unit clause. -/
theorem unitPropagate_ok_inv : ∀ (fuel : Nat) (env : SolverEnvironment) (seen : Bool)
    (env' : SolverEnvironment) (v : Option Clause) (b : Bool),
    unitPropagate fuel env seen = .ok (env', v, b) →
      v = none ∧
        env'.clauses.find? (fun c => isUnit c env'.implicationGraph.modelFun) = none
  | 0, env, seen => by
    intro env' v b h
    simp [unitPropagate] at h
  | fuel + 1, env, seen => by
    intro env' v b h
    rw [unitPropagate] at h
    split at h
    · rename_i hfind
      have hflat : env = env' ∧ none = v ∧ seen = b := by
        injection h with h'
        simpa using h'
      obtain ⟨rfl, hv, -⟩ := hflat
      exact ⟨hv.symm, hfind⟩
    · rename_i uc hfind
      split at h
      · cases h
      · rename_i ul hgu
        dsimp only at h
        split at h
        · exact unitPropagate_ok_inv fuel _ seen env' v b h
        · rename_i cc hc
          split at h
          · cases h
          · cases h
          · rename_i env2 hca
            exact unitPropagate_ok_inv fuel env2 true env' v b h

/-- C3 (amended): `unit_propagate` never returns a conflict clause to
its caller.  When a scan after a unit push finds an INCONSISTENT clause
(the first one in database order), the method runs `conflict_analysis`
on it inline and keeps propagating; every normal return of
`unit_propagate` carries the value `None`, and UNSAT surfaces as an
exception instead. -/
theorem unit_propagate_normal_return_is_none (fuel : Nat) (env : SolverEnvironment)
    (seen : Bool) (env' : SolverEnvironment) (v : Option Clause) (b : Bool)
    (h : unitPropagate fuel env seen = .ok (env', v, b)) : v = none :=
  (unitPropagate_ok_inv fuel env seen env' v b h).1

/-- Witness for `unit_propagate_normal_return_is_none` on a concrete
quiescent run. -/
theorem unit_propagate_normal_return_is_none_witness :
    unitPropagate 1 envNoUnit false = .ok (envNoUnit, none, false) ∧
      (none : Option Clause) = none :=
  ⟨rfl, unit_propagate_normal_return_is_none 1 envNoUnit false envNoUnit none false rfl⟩

/-- C9: when `unit_propagate` returns its no-conflict result (`None`),
no clause of the clause database (each mentioning a variable at most
once) has status `UNIT` under the model of the implication graph at
that moment. -/
theorem unit_propagate_none_is_fixpoint (fuel : Nat) (env : SolverEnvironment) (seen : Bool)
    (env' : SolverEnvironment) (v : Option Clause) (b : Bool)
    (h : unitPropagate fuel env seen = .ok (env', v, b))
    (c : Clause) (hc : c ∈ env'.clauses) (hnd : (c.lits.map Lit.var).Nodup) :
    (getStatus c env'.implicationGraph.modelFun).status ≠ .UNIT := by
  have hfind := (unitPropagate_ok_inv fuel env seen env' v b h).2
  have hnu := List.find?_eq_none.mp hfind c hc
  intro hst
  rw [← isUnit_iff_status_unit c _ hnd] at hst
  exact hnu hst

/-- Witness for `unit_propagate_none_is_fixpoint` on a concrete
quiescent run. -/
theorem unit_propagate_none_is_fixpoint_witness :
    (unitPropagate 1 envNoUnit false = .ok (envNoUnit, none, false)) ∧
      cnfA ∈ envNoUnit.clauses ∧ ((cnfA.lits.map Lit.var).Nodup) ∧
      (getStatus cnfA envNoUnit.implicationGraph.modelFun).status ≠ .UNIT :=
  ⟨rfl, by simp [envNoUnit], by decide,
    unit_propagate_none_is_fixpoint 1 envNoUnit false envNoUnit none false rfl cnfA
      (by simp [envNoUnit]) (by decide)⟩

/-- A property preserved by adding one clause to a clause set. -/
theorem clauseSetAdd_forall (P : Clause → Prop) (s : List Clause) (c : Clause)
    (hs : ∀ d ∈ s, P d) (hc : P c) : ∀ d ∈ clauseSetAdd s c, P d := by
  intro d hd
  unfold clauseSetAdd at hd
  split at hd
  · exact hs d hd
  · rcases List.mem_append.mp hd with h1 | h1
    · exact hs d h1
    · simp at h1
      rw [h1]
      exact hc

/-- A property preserved by a clause-set union. -/
theorem clauseSetUpdate_forall (P : Clause → Prop) : ∀ (cs : List Clause) (s : List Clause),
    (∀ d ∈ s, P d) → (∀ d ∈ cs, P d) → ∀ d ∈ clauseSetUpdate s cs, P d
  | [], s => by
    intro hs _
    simpa [clauseSetUpdate] using hs
  | c :: rest, s => by
    intro hs hcs
    rw [clauseSetUpdate, List.foldl_cons]
    exact clauseSetUpdate_forall P rest (clauseSetAdd s c)
      (clauseSetAdd_forall P s c hs (hcs c (List.mem_cons_self c rest)))
      (fun d hd => hcs d (List.mem_cons_of_mem c hd))

mutual
/-- Every clause produced by `get_resolution_formula_clauses` is an
original (non-learned) formula clause. -/
theorem rfc_allBase : ∀ (c : Clause), ∀ d ∈ getResolutionFormulaClauses c,
    d.isLearned = false
  | .base lits name => by
    rw [getResolutionFormulaClauses]
    intro d hd
    simp at hd
    rw [hd]
    rfl
  | .learned lits name steps => by
    rw [getResolutionFormulaClauses]
    exact rfcSteps_allBase steps [] (by simp)
/-- The accumulation loop of `get_resolution_formula_clauses` only ever
adds original formula clauses. -/
theorem rfcSteps_allBase : ∀ (steps : List Clause) (acc : List Clause),
    (∀ d ∈ acc, d.isLearned = false) → ∀ d ∈ rfcSteps steps acc, d.isLearned = false
  | [], acc => by
    intro hacc
    simpa [rfcSteps] using hacc
  | s :: rest, acc => by
    intro hacc
    rw [rfcSteps]
    split
    · exact rfcSteps_allBase rest _
        (clauseSetUpdate_forall _ (getResolutionFormulaClauses s) acc hacc (rfc_allBase s))
    · rename_i hnl
      exact rfcSteps_allBase rest _
        (clauseSetAdd_forall _ acc s hacc (by simpa using hnl))
end

/-- An `UnsatException` escaping the resolution loop of
`conflict_analysis` always carries the reduction of a freshly built
empty learned clause. -/
theorem analysisLoop_unsat_form : ∀ (fuel : Nat) (env : SolverEnvironment)
    (learned : Clause) (proof : List Clause) (r : UnsatReason),
    analysisLoop fuel env learned proof = .exc (.unsat r) →
      ∃ nm steps, r = .clauses (getResolutionFormulaClauses (Clause.learned [] nm steps))
  | 0, env, learned, proof => by
    intro r h
    simp [analysisLoop] at h
  | fuel + 1, env, learned, proof => by
    intro r h
    rw [analysisLoop] at h
    split at h
    · cases h
    · split at h
      · cases h
      · split at h
        · cases h
        · split at h
          · cases h
          · rename_i ante hante
            dsimp only at h
            split at h
            · rename_i hlen
              have hnil : resolventLits learned.lits ante.lits = [] :=
                List.length_eq_zero.mp hlen
              injection h with h'
              injection h' with h''
              rw [hnil] at h''
              exact ⟨some ("l" ++ toString env.learnedClauses.length), proof ++ [ante],
                h''.symm⟩
            · exact analysisLoop_unsat_form fuel _ _ _ r h

/-- An `UnsatException` escaping the backjump loop of
`conflict_analysis` always carries the bare conflict clause. -/
theorem backjumpLoop_unsat_form : ∀ (fuel : Nat) (env : SolverEnvironment)
    (learned : Clause) (cc : Clause) (liu : Bool) (r : UnsatReason),
    backjumpLoop fuel env learned cc liu = .exc (.unsat r) → r = .clause cc
  | 0, env, learned, cc, liu => by
    intro r h
    simp [backjumpLoop] at h
  | fuel + 1, env, learned, cc, liu => by
    intro r h
    rw [backjumpLoop] at h
    split at h
    · split at h
      · injection h with h'
        injection h' with h''
        exact h''.symm
      · cases h
    · split at h
      · injection h with h'
        injection h' with h''
        exact h''.symm
      · split at h
        · split at h
          · split at h
            · cases h
            · exact backjumpLoop_unsat_form fuel _ _ cc _ r h
          · cases h
        · split at h
          · cases h
          · exact backjumpLoop_unsat_form fuel _ _ cc _ r h

/-- C5 (amended): when `conflict_analysis` raises UNSAT, the attached
reason has one of two distinct forms — the empty-resolvent path attaches
the set of clauses obtained by recursively reducing the learned clause's
`resolution_steps`, and that set contains only original (non-learned)
clauses, while the backjump paths (trail exhausted before the learned
clause is unit, or last decision level 0) attach the bare conflict
clause object, unreduced. -/
theorem conflict_analysis_unsat_reason_forms (fuel : Nat) (env : SolverEnvironment)
    (cc : Clause) (r : UnsatReason)
    (h : conflictAnalysis fuel env cc = .exc (.unsat r)) :
    (∃ cs, r = .clauses cs ∧ ∀ d ∈ cs, d.isLearned = false) ∨ r = .clause cc := by
  rw [conflictAnalysis] at h
  split at h
  · cases h
  · rename_i e heq
    injection h with h'
    rw [h'] at heq
    rcases analysisLoop_unsat_form fuel env cc [cc] r heq with ⟨nm, steps, hr⟩
    exact Or.inl ⟨getResolutionFormulaClauses (Clause.learned [] nm steps), hr,
      rfc_allBase (Clause.learned [] nm steps)⟩
  · exact Or.inr (backjumpLoop_unsat_form fuel _ _ cc false r h)

/-- Witness for `conflict_analysis_unsat_reason_forms`: on
`(v1), (!v1)` with `v1 = true` just propagated, conflict analysis
resolves to the empty clause and raises UNSAT carrying the two original
clauses. -/
theorem conflict_analysis_unsat_reason_forms_witness :
    (conflictAnalysis 5 envContradiction cnfUnitNeg =
      .exc (.unsat (.clauses [cnfUnitNeg, cnfUnitPos]))) ∧
      ((∃ cs, UnsatReason.clauses [cnfUnitNeg, cnfUnitPos] = .clauses cs ∧
          ∀ d ∈ cs, d.isLearned = false) ∨
        UnsatReason.clauses [cnfUnitNeg, cnfUnitPos] = .clause cnfUnitNeg) :=
  ⟨rfl, conflict_analysis_unsat_reason_forms 5 envContradiction cnfUnitNeg _ rfl⟩

/-- Membership in `complementaryVars`: exactly the variables occurring
with both polarities. -/
theorem complementaryVars_mem (u : List Lit) (v : Var) :
    v ∈ complementaryVars u ↔ (Lit.mk v true ∈ u ∧ Lit.mk v false ∈ u) := by
  unfold complementaryVars
  rw [List.mem_filter]
  constructor
  · rintro ⟨-, hb⟩
    rw [Bool.and_eq_true] at hb
    exact ⟨List.elem_iff.mp hb.1, List.elem_iff.mp hb.2⟩
  · rintro ⟨hp, hn⟩
    refine ⟨?_, ?_⟩
    · rw [List.mem_dedup]
      exact List.mem_map.mpr ⟨Lit.mk v true, hp, rfl⟩
    · rw [Bool.and_eq_true]
      exact ⟨List.elem_iff.mpr hp, List.elem_iff.mpr hn⟩

/-- The literals of a `resolve_with` result are the resolvent
literals, for either clause class. -/
theorem resolveWith_lits (c1 c2 : Clause) (nm : Option String) :
    (resolveWith c1 c2 nm).lits = resolventLits c1.lits c2.lits := by
  cases c1 <;> rfl

/-- C7: for two clauses whose literal union has exactly one variable
occurring with both polarities (the pivot `p`), the literal list
computed by `resolve_with` — the identical expression is inlined in
`conflict_analysis`, see `resolventLits` — is duplicate-free and holds
exactly the literals of the union of the two clauses minus both
literals on `p`. -/
theorem resolve_with_is_binary_resolvent (c1 c2 : Clause) (p : Var)
    (h : complementaryVars (c1.lits ++ c2.lits) = [p]) :
    (resolveWith c1 c2 none).lits.Nodup ∧
      ∀ l : Lit, l ∈ (resolveWith c1 c2 none).lits ↔
        ((l ∈ c1.lits ∨ l ∈ c2.lits) ∧ l.var ≠ p) := by
  have hiff : ∀ v, (Lit.mk v true ∈ c1.lits ++ c2.lits ∧
      Lit.mk v false ∈ c1.lits ++ c2.lits) ↔ v = p := by
    intro v
    rw [← complementaryVars_mem, h, List.mem_singleton]
  rw [resolveWith_lits]
  constructor
  · exact (List.nodup_dedup _).filter _
  · intro l
    unfold resolventLits
    rw [List.mem_filter, List.mem_dedup, List.mem_append]
    have hneg : (!(((c1.lits ++ c2.lits).dedup).contains (Lit.mk l.var (!l.polarity)))) = true ↔
        Lit.mk l.var (!l.polarity) ∉ c1.lits ++ c2.lits := by
      rw [Bool.not_eq_true']
      constructor
      · intro hfa hmem
        have : ((c1.lits ++ c2.lits).dedup).contains (Lit.mk l.var (!l.polarity)) = true :=
          List.elem_iff.mpr (List.mem_dedup.mpr hmem)
        rw [this] at hfa
        cases hfa
      · intro hnm
        rcases hb : ((c1.lits ++ c2.lits).dedup).contains (Lit.mk l.var (!l.polarity))
        · rfl
        · exact absurd (List.mem_dedup.mp (List.elem_iff.mp hb)) hnm
    rw [hneg]
    constructor
    · rintro ⟨hmem, hnneg⟩
      refine ⟨hmem, ?_⟩
      intro hvp
      apply hnneg
      have hboth := (hiff p).mpr rfl
      rcases hpol : l.polarity
      · rw [hvp]
        simpa using hboth.1
      · rw [hvp]
        simpa using hboth.2
    · rintro ⟨hmem, hvp⟩
      refine ⟨hmem, ?_⟩
      intro hneg'
      apply hvp
      apply (hiff l.var).mp
      rcases hpol : l.polarity
      · constructor
        · simpa [hpol] using hneg'
        · rw [← hpol]
          rcases hmem with hm | hm
          · exact List.mem_append.mpr (Or.inl (by simpa using hm))
          · exact List.mem_append.mpr (Or.inr (by simpa using hm))
      · constructor
        · rw [← hpol]
          rcases hmem with hm | hm
          · exact List.mem_append.mpr (Or.inl (by simpa using hm))
          · exact List.mem_append.mpr (Or.inr (by simpa using hm))
        · simpa [hpol] using hneg'

/-- Witness for `resolve_with_is_binary_resolvent` on
`(v1 OR v2)` and `(!v1 OR v2)`, pivot `v1`, checked at the literal
`v2`. -/
theorem resolve_with_is_binary_resolvent_witness :
    (complementaryVars (cnfA.lits ++ (Clause.base [⟨"v1", false⟩, ⟨"v2", true⟩] none).lits) =
      ["v1"]) ∧
      (resolveWith cnfA (Clause.base [⟨"v1", false⟩, ⟨"v2", true⟩] none) none).lits.Nodup ∧
      ((⟨"v2", true⟩ : Lit) ∈
          (resolveWith cnfA (Clause.base [⟨"v1", false⟩, ⟨"v2", true⟩] none) none).lits ↔
        (((⟨"v2", true⟩ : Lit) ∈ cnfA.lits ∨
            (⟨"v2", true⟩ : Lit) ∈ (Clause.base [⟨"v1", false⟩, ⟨"v2", true⟩] none).lits) ∧
          (⟨"v2", true⟩ : Lit).var ≠ "v1")) :=
  ⟨by decide,
   (resolve_with_is_binary_resolvent cnfA (Clause.base [⟨"v1", false⟩, ⟨"v2", true⟩] none)
      "v1" (by decide)).1,
   (resolve_with_is_binary_resolvent cnfA (Clause.base [⟨"v1", false⟩, ⟨"v2", true⟩] none)
      "v1" (by decide)).2 ⟨"v2", true⟩⟩

/-- The clause loop of `parse_dimacs` produces exactly one clause per
input line, each the parse of its own line. -/
theorem parseClauses_structure (vs : List Var) : ∀ (ls : List String) (cs : List Clause),
    parseClauses vs ls = .ok cs →
      cs.length = ls.length ∧
        ∀ i lstr, ls.get? i = some lstr →
          ∃ lits, parseClauseLine vs lstr = .ok lits ∧
            cs.get? i = some (Clause.base lits none)
  | [], cs => by
    intro h
    rw [parseClauses] at h
    injection h with h'
    rw [← h']
    exact ⟨rfl, by intro i lstr hl; simp at hl⟩
  | l :: rest, cs => by
    intro h
    rw [parseClauses] at h
    split at h
    · cases h
    · rename_i lits hline
      split at h
      · cases h
      · rename_i cs' hrest
        injection h with h'
        obtain ⟨hlen, hidx⟩ := parseClauses_structure vs rest cs' hrest
        rw [← h']
        refine ⟨by simp [hlen], ?_⟩
        intro i lstr hl
        match i with
        | 0 =>
          simp only [List.get?] at hl
          injection hl with hl'
          rw [← hl']
          exact ⟨lits, hline, rfl⟩
        | i + 1 =>
          simp only [List.get?] at hl ⊢
          exact hidx i lstr hl

/-- C10: `parse_dimacs` creates exactly one clause per non-comment line
after the header, each clause being the parse of exactly its own line
(so a blank line, or one starting with the terminator `0`, contributes
an empty clause at its position, and integers spanning two lines
contribute two separate clauses). -/
theorem parse_dimacs_one_clause_per_line (lines : List String) (vs : List Var)
    (cs : List Clause) (h : parseDimacs lines = .ok (vs, cs)) :
    cs.length = ((nonCommentLines lines).drop 1).length ∧
      (∀ i lstr, ((nonCommentLines lines).drop 1).get? i = some lstr →
        ∃ lits, parseClauseLine vs lstr = .ok lits ∧
          cs.get? i = some (Clause.base lits none)) ∧
      parseClauseLine vs "" = .ok [] ∧
      parseClauseLine vs "0" = .ok [] := by
  rw [parseDimacs] at h
  split at h
  · cases h
  · rename_i header rest heq
    have hdrop : (nonCommentLines lines).drop 1 = rest := by
      rw [heq]
      rfl
    split at h
    · cases h
    · split at h
      · split at h
        · cases h
        · split at h
          · split at h
            · cases h
            · split at h
              · cases h
              · split at h
                · cases h
                · split at h
                  · cases h
                  · dsimp only at h
                    split at h
                    · cases h
                    · rename_i cs' hpc
                      injection h with h'
                      injection h' with h1 h2
                      rw [hdrop, ← h1, ← h2]
                      obtain ⟨hlen, hidx⟩ := parseClauses_structure _ rest cs' hpc
                      exact ⟨hlen, hidx, rfl, rfl⟩
          · cases h
      · cases h

/-- Witness for `parse_dimacs_one_clause_per_line` on a concrete file:
the clause `1 -2`, a blank line, and the two lines `1` and `2 0`
(integers of one intended clause split over two lines) yield the four
clauses `(v1 OR !v2)`, the empty clause, `(v1)` and `(v2)`. -/
theorem parse_dimacs_one_clause_per_line_witness :
    (parseDimacs ["p cnf 2 4", "1 -2", "", "1", "2 0"] =
      .ok (["v1", "v2"],
        [Clause.base [⟨"v1", true⟩, ⟨"v2", false⟩] none,
         Clause.base [] none,
         Clause.base [⟨"v1", true⟩] none,
         Clause.base [⟨"v2", true⟩] none])) ∧
      ([Clause.base [⟨"v1", true⟩, ⟨"v2", false⟩] none,
        Clause.base [] none,
        Clause.base [⟨"v1", true⟩] none,
        Clause.base [⟨"v2", true⟩] none] : List Clause).length =
        ((nonCommentLines ["p cnf 2 4", "1 -2", "", "1", "2 0"]).drop 1).length :=
  ⟨rfl,
   (parse_dimacs_one_clause_per_line ["p cnf 2 4", "1 -2", "", "1", "2 0"] ["v1", "v2"]
      [Clause.base [⟨"v1", true⟩, ⟨"v2", false⟩] none,
       Clause.base [] none,
       Clause.base [⟨"v1", true⟩] none,
       Clause.base [⟨"v2", true⟩] none] rfl).1⟩

end SATurday
